import Mathlib

/-!
Shallow embedding of the kosync-rs annotation synchronization engine
(src/server/src/db.rs, src/server/src/models.rs, src/server/src/error.rs).

Modelling conventions:
* `serde_json::Value` locator fields (`page`, `pos0`, `pos1`) are carried as
  opaque `String`s standing for their serialized form; the merge algorithm
  never interprets them, it only compares them for equality.
* The `HashMap<String, Annotation>` used by `merge_annotations` is embedded
  as an association list whose keys are the `(page, pos0, pos1)` triple
  (standing for the `"page|pos0|pos1"` key string built by `position_key`,
  which separates the three components).
* Wall-clock time (`SystemTime::now`) is passed in as an explicit
  `timestamp` parameter.
* The redb store is embedded per key: the stored value for one
  `"user:document"` key is an `Option DocumentAnnotations`.  The write
  transaction commits only on the `Ok` path of `update_annotations`; an
  early `Err` return drops the transaction, leaving the stored value
  unchanged, which `update_annotations_store` makes explicit.
* Storage and deserialization faults (redb / serde_json errors) are I/O
  conditions outside the pure model; the only modelled error is the
  version-conflict variant raised by the code itself.
-/

namespace KoSync

/-- Error type from src/server/src/error.rs restricted to the one variant
the modelled code can raise (`AppError::VersionConflict`). -/
inductive AppError where
  | VersionConflict
  deriving DecidableEq, Repr

/-- The annotation record from src/server/src/models.rs.  `datetime` is the
caller-supplied creation timestamp (`createdAt`), `datetime_updated` the
optional update timestamp (`updatedAt`); `page`, `pos0`, `pos1` are the
opaque locator fields. -/
structure Annotation where
  datetime : String
  datetime_updated : Option String
  drawer : Option String
  color : Option String
  text : Option String
  text_edited : Option Bool
  note : Option String
  chapter : Option String
  pageno : Option Int
  page : String
  pos0 : Option String
  pos1 : Option String
  deriving DecidableEq, Repr

/-- The per-(user, document) annotation record from src/server/src/models.rs. -/
structure DocumentAnnotations where
  version : Nat
  annotations : List Annotation
  deleted : List String
  updated_at : Int
  deriving DecidableEq, Repr

/-- Derived `Default::default()` of `DocumentAnnotations`: version 0, empty
lists, timestamp 0. -/
def DocumentAnnotations.default : DocumentAnnotations :=
  { version := 0, annotations := [], deleted := [], updated_at := 0 }

/-- The reading-progress record from src/server/src/models.rs (all fields
optional, all `None` by default). -/
structure Progress where
  document : Option String
  progress : Option String
  percentage : Option Float
  device : Option String
  device_id : Option String
  timestamp : Option Int

/-- Derived `Default::default()` of `Progress`: every field absent. -/
def Progress.default : Progress :=
  { document := none, progress := none, percentage := none,
    device := none, device_id := none, timestamp := none }

/-- Identity key of an annotation record, modelling `position_key` in
src/server/src/db.rs: the `(page, pos0, pos1)` triple (the code joins the
three serialized components with `|` into one map key). -/
abbrev PosKey : Type := String × Option String × Option String

/-- `position_key` from src/server/src/db.rs. -/
def position_key (a : Annotation) : PosKey :=
  (a.page, a.pos0, a.pos1)

/-- `effective_time` from src/server/src/db.rs:
`a.datetime_updated.as_deref().unwrap_or(&a.datetime)`. -/
def effective_time (a : Annotation) : String :=
  match a.datetime_updated with
  | some t => t
  | none => a.datetime

/-- Lexicographic strict order on character lists, by code point. -/
def lexLt : List Char → List Char → Bool
  | _, [] => false
  | [], _ :: _ => true
  | c₁ :: t₁, c₂ :: t₂ => if c₁ = c₂ then lexLt t₁ t₂ else decide (c₁ < c₂)

/-- The strict string order used by the Rust `>` comparison on `&str` in
`merge_annotations`: lexicographic on UTF-8 bytes, which coincides with
lexicographic code-point order. -/
def strLt (s₁ s₂ : String) : Bool :=
  lexLt s₁.data s₂.data

/-- Association-list lookup, modelling `HashMap::get`. -/
def lookupKV (m : List (PosKey × Annotation)) (k : PosKey) : Option Annotation :=
  match m with
  | [] => none
  | (k', v) :: rest => if k' = k then some v else lookupKV rest k

/-- Association-list insert-or-replace, modelling `HashMap::insert`. -/
def insertKV (m : List (PosKey × Annotation)) (k : PosKey) (v : Annotation) :
    List (PosKey × Annotation) :=
  match m with
  | [] => [(k, v)]
  | (k', v') :: rest =>
      if k' = k then (k, v) :: rest else (k', v') :: insertKV rest k v

/-- One step of the first loop of `merge_annotations` in src/server/src/db.rs:
a server annotation is inserted under its position key unless its `datetime`
is in the client's deleted list. -/
def merge_server_step (client_deleted : List String)
    (m : List (PosKey × Annotation)) (a : Annotation) :
    List (PosKey × Annotation) :=
  if a.datetime ∈ client_deleted then m else insertKV m (position_key a) a

/-- The first loop of `merge_annotations`: fold the server annotations into
an empty map. -/
def merge_server_phase (client_deleted : List String)
    (server : List Annotation) : List (PosKey × Annotation) :=
  server.foldl (merge_server_step client_deleted) []

/-- One step of the second loop of `merge_annotations`: a client annotation
is skipped when its `datetime` is in the server's deleted list; otherwise it
replaces an entry at the same position key only when its effective time is
strictly greater, and is inserted fresh when the slot is empty. -/
def merge_client_step (server_deleted : List String)
    (m : List (PosKey × Annotation)) (a : Annotation) :
    List (PosKey × Annotation) :=
  if a.datetime ∈ server_deleted then m
  else
    match lookupKV m (position_key a) with
    | some existing =>
        if strLt (effective_time existing) (effective_time a) then
          insertKV m (position_key a) a
        else m
    | none => insertKV m (position_key a) a

/-- The keyed map built by `merge_annotations` after both loops. -/
def merge_map (server client : List Annotation)
    (server_deleted client_deleted : List String) :
    List (PosKey × Annotation) :=
  client.foldl (merge_client_step server_deleted)
    (merge_server_phase client_deleted server)

/-- `merge_annotations` from src/server/src/db.rs: the de-duplicated value
collection of the keyed map (`merged.into_values().collect()`). -/
def merge_annotations (server client : List Annotation)
    (server_deleted client_deleted : List String) : List Annotation :=
  (merge_map server client server_deleted client_deleted).map Prod.snd

/-- The deleted-list union loop of `Database::update_annotations`:
`for d in new_deleted { if !all_deleted.contains(&d) { all_deleted.push(d) } }`. -/
def merge_deleted (current_deleted new_deleted : List String) : List String :=
  new_deleted.foldl (fun acc d => if d ∈ acc then acc else acc ++ [d])
    current_deleted

/-- The version check of `Database::update_annotations`:
`if let Some(base) = base_version { if base != current.version && current.version > 0 { ... } }`. -/
def version_conflict (current_version : Nat) (base_version : Option Nat) : Bool :=
  match base_version with
  | some base => decide (base ≠ current_version ∧ 0 < current_version)
  | none => false

/-- The record written by the success path of `Database::update_annotations`:
version bumped by one, merged annotations, unioned deleted list, fresh
server timestamp. -/
def apply_update (current : DocumentAnnotations)
    (new_annotations : List Annotation) (new_deleted : List String)
    (timestamp : Int) : DocumentAnnotations :=
  { version := current.version + 1
    annotations := merge_annotations current.annotations new_annotations
      current.deleted new_deleted
    deleted := merge_deleted current.deleted new_deleted
    updated_at := timestamp }

/-- The body of `Database::update_annotations` acting on the current record
of one key (already read, or the default when absent): either the
version-conflict error, or the new record with the returned
`(version, timestamp)` pair. -/
def update_annotations (current : DocumentAnnotations)
    (new_annotations : List Annotation) (new_deleted : List String)
    (base_version : Option Nat) (timestamp : Int) :
    Except AppError (DocumentAnnotations × Nat × Int) :=
  if version_conflict current.version base_version then
    Except.error AppError.VersionConflict
  else
    Except.ok (apply_update current new_annotations new_deleted timestamp,
      (apply_update current new_annotations new_deleted timestamp).version,
      timestamp)

/-- `Database::get_annotations` on one key: the stored record, or the
default when the key is absent. -/
def get_annotations (stored : Option DocumentAnnotations) :
    DocumentAnnotations :=
  match stored with
  | some d => d
  | none => DocumentAnnotations.default

/-- `Database::get_progress` on one key: the stored record, or the default
when the key is absent. -/
def get_progress (stored : Option Progress) : Progress :=
  match stored with
  | some p => p
  | none => Progress.default

/-- `Database::update_annotations` as a transition of the stored value of
one key: the transaction commits (replacing the stored value) only on the
`Ok` path; the early `Err` return drops the transaction and the stored
value is unchanged. -/
def update_annotations_store (stored : Option DocumentAnnotations)
    (new_annotations : List Annotation) (new_deleted : List String)
    (base_version : Option Nat) (timestamp : Int) :
    Option DocumentAnnotations × Except AppError (Nat × Int) :=
  match update_annotations (get_annotations stored) new_annotations
      new_deleted base_version timestamp with
  | Except.error e => (stored, Except.error e)
  | Except.ok (doc, v, ts) => (some doc, Except.ok (v, ts))

/-- Sample annotation used for concrete evaluations. -/
def sampleA : Annotation :=
  { datetime := "2024-01-15 10:00:00"
    datetime_updated := none
    drawer := none
    color := none
    text := some "Highlight 1"
    text_edited := none
    note := none
    chapter := none
    pageno := none
    page := "p1"
    pos0 := some "p1a"
    pos1 := some "p1b" }

/-- Sample annotation at the same identity triple as `sampleA` but with a
later creation time. -/
def sampleB : Annotation :=
  { sampleA with datetime := "2024-01-15 11:00:00", text := some "Highlight 2" }

/-! Helper lemmas about the association-list map operations. -/

theorem lexLt_irrefl (l : List Char) : lexLt l l = false := by
  induction l with
  | nil => rfl
  | cons c t ih => simp [lexLt, ih]

theorem strLt_irrefl (s : String) : strLt s s = false :=
  lexLt_irrefl s.data

theorem lookupKV_insertKV_self (m : List (PosKey × Annotation)) (k : PosKey)
    (v : Annotation) : lookupKV (insertKV m k v) k = some v := by
  induction m with
  | nil => simp [insertKV, lookupKV]
  | cons p rest ih =>
      obtain ⟨k', v'⟩ := p
      by_cases h : k' = k
      · simp [insertKV, h, lookupKV]
      · simp [insertKV, h, lookupKV, ih]

theorem lookupKV_insertKV_ne (m : List (PosKey × Annotation)) (k k' : PosKey)
    (v : Annotation) (h : k' ≠ k) :
    lookupKV (insertKV m k v) k' = lookupKV m k' := by
  have hk : k ≠ k' := Ne.symm h
  induction m with
  | nil => simp [insertKV, lookupKV, hk]
  | cons p rest ih =>
      obtain ⟨k₀, v₀⟩ := p
      by_cases h₀ : k₀ = k
      · subst h₀
        simp [insertKV, lookupKV, hk]
      · simp only [insertKV, h₀, if_false, lookupKV]
        by_cases h₁ : k₀ = k'
        · simp [h₁]
        · simp [h₁, ih]

theorem mem_insertKV (m : List (PosKey × Annotation)) (k : PosKey)
    (v : Annotation) (p : PosKey × Annotation) (hp : p ∈ insertKV m k v) :
    p = (k, v) ∨ p ∈ m := by
  induction m with
  | nil => simpa [insertKV] using hp
  | cons q rest ih =>
      obtain ⟨k₀, v₀⟩ := q
      by_cases h₀ : k₀ = k
      · simp only [insertKV, h₀, if_true] at hp
        rcases List.mem_cons.mp hp with h | h
        · exact Or.inl h
        · exact Or.inr (List.mem_cons_of_mem _ h)
      · simp only [insertKV, h₀, if_false] at hp
        rcases List.mem_cons.mp hp with h | h
        · exact Or.inr (List.mem_cons.mpr (Or.inl h))
        · rcases ih h with h' | h'
          · exact Or.inl h'
          · exact Or.inr (List.mem_cons_of_mem _ h')

theorem isSome_lookupKV_insertKV (m : List (PosKey × Annotation))
    (k k' : PosKey) (v : Annotation) (h : (lookupKV m k').isSome) :
    (lookupKV (insertKV m k v) k').isSome := by
  by_cases hk : k' = k
  · subst hk; simp [lookupKV_insertKV_self]
  · rwa [lookupKV_insertKV_ne m k k' v hk]

theorem lookupKV_mem (m : List (PosKey × Annotation)) (k : PosKey)
    (v : Annotation) (h : lookupKV m k = some v) : (k, v) ∈ m := by
  induction m with
  | nil => simp [lookupKV] at h
  | cons p rest ih =>
      obtain ⟨k₀, v₀⟩ := p
      by_cases h₀ : k₀ = k
      · subst h₀
        simp only [lookupKV, if_true] at h
        injection h with h'
        subst h'
        exact List.mem_cons_self _ _
      · simp only [lookupKV, h₀, if_false] at h
        exact List.mem_cons_of_mem _ (ih h)

/-- Fold invariant principle specialized to the merge accumulator. -/
theorem foldl_induct {α : Type} (P : List (PosKey × Annotation) → Prop)
    (step : List (PosKey × Annotation) → α → List (PosKey × Annotation)) :
    ∀ (l : List α) (m : List (PosKey × Annotation)), P m →
      (∀ m' a, a ∈ l → P m' → P (step m' a)) → P (l.foldl step m) := by
  intro l
  induction l with
  | nil => intro m hm _; exact hm
  | cons a t ih =>
      intro m hm hstep
      exact ih (step m a) (hstep m a (List.mem_cons_self a t) hm)
        (fun m' b hb hm' => hstep m' b (List.mem_cons_of_mem a hb) hm')

/-- Reduction of `merge_client_step` when the slot is empty. -/
theorem merge_client_step_none (sd : List String)
    (m : List (PosKey × Annotation)) ( a : Annotation)
    (hd : a.datetime ∉ sd) (hl : lookupKV m (position_key a) = none) :
    merge_client_step sd m a = insertKV m (position_key a) a := by
  unfold merge_client_step
  rw [if_neg hd, hl]

/-- Reduction of `merge_client_step` when the slot is occupied. -/
theorem merge_client_step_some (sd : List String)
    (m : List (PosKey × Annotation)) ( a e : Annotation)
    (hd : a.datetime ∉ sd) (hl : lookupKV m (position_key a) = some e) :
    merge_client_step sd m a =
      if strLt (effective_time e) (effective_time a) then
        insertKV m (position_key a) a
      else m := by
  unfold merge_client_step
  rw [if_neg hd, hl]

/-! Helper lemmas about the two phases of the merge. -/

theorem merge_server_phase_values (client_deleted : List String)
    (server : List Annotation) (p : PosKey × Annotation)
    (hp : p ∈ merge_server_phase client_deleted server) :
    p.2 ∈ server ∧ p.2.datetime ∉ client_deleted := by
  refine foldl_induct
    (fun m => ∀ q ∈ m, q.2 ∈ server ∧ q.2.datetime ∉ client_deleted) _ server []
    (by intro q hq; cases hq) ?_ p hp
  intro m' a ha hm' q hq
  unfold merge_server_step at hq
  by_cases hd : a.datetime ∈ client_deleted
  · rw [if_pos hd] at hq
    exact hm' q hq
  · rw [if_neg hd] at hq
    rcases mem_insertKV _ _ _ _ hq with h | h
    · rw [h]; exact ⟨ha, hd⟩
    · exact hm' q h

theorem merge_map_values (server client : List Annotation)
    (sd cd : List String) (p : PosKey × Annotation)
    (hp : p ∈ merge_map server client sd cd) :
    (p.2 ∈ server ∧ p.2.datetime ∉ cd) ∨ (p.2 ∈ client ∧ p.2.datetime ∉ sd) := by
  refine foldl_induct
    (fun m => ∀ q ∈ m,
      (q.2 ∈ server ∧ q.2.datetime ∉ cd) ∨ (q.2 ∈ client ∧ q.2.datetime ∉ sd))
    _ client _ (fun q hq => Or.inl (merge_server_phase_values cd server q hq))
    ?_ p hp
  intro m' a ha hm' q hq
  by_cases hd : a.datetime ∈ sd
  · unfold merge_client_step at hq
    rw [if_pos hd] at hq
    exact hm' q hq
  · rcases hl : lookupKV m' (position_key a) with _ | e
    · rw [merge_client_step_none sd m' a hd hl] at hq
      rcases mem_insertKV _ _ _ _ hq with h | h
      · rw [h]; exact Or.inr ⟨ha, hd⟩
      · exact hm' q h
    · rw [merge_client_step_some sd m' a e hd hl] at hq
      by_cases ht : strLt (effective_time e) (effective_time a)
      · rw [if_pos ht] at hq
        rcases mem_insertKV _ _ _ _ hq with h | h
        · rw [h]; exact Or.inr ⟨ha, hd⟩
        · exact hm' q h
      · rw [if_neg ht] at hq
        exact hm' q hq

theorem mem_merge (server client : List Annotation) (sd cd : List String)
    ( a : Annotation) (ha : a ∈ merge_annotations server client sd cd) :
    (a ∈ server ∧ a.datetime ∉ cd) ∨ (a ∈ client ∧ a.datetime ∉ sd) := by
  unfold merge_annotations at ha
  rcases List.mem_map.mp ha with ⟨p, hp, hpa⟩
  rw [← hpa]
  exact merge_map_values server client sd cd p hp

theorem merge_map_keys (server client : List Annotation) (sd cd : List String)
    (p : PosKey × Annotation) (hp : p ∈ merge_map server client sd cd) :
    p.1 = position_key p.2 := by
  refine foldl_induct (fun m => ∀ q ∈ m, q.1 = position_key q.2) _ client _
    ?_ ?_ p hp
  · refine foldl_induct (fun m => ∀ q ∈ m, q.1 = position_key q.2) _ server []
      (by intro q hq; cases hq) ?_
    intro m' a ha hm' q hq
    unfold merge_server_step at hq
    by_cases hd : a.datetime ∈ cd
    · rw [if_pos hd] at hq
      exact hm' q hq
    · rw [if_neg hd] at hq
      rcases mem_insertKV _ _ _ _ hq with h | h
      · rw [h]
      · exact hm' q h
  · intro m' a ha hm' q hq
    by_cases hd : a.datetime ∈ sd
    · unfold merge_client_step at hq
      rw [if_pos hd] at hq
      exact hm' q hq
    · rcases hl : lookupKV m' (position_key a) with _ | e
      · rw [merge_client_step_none sd m' a hd hl] at hq
        rcases mem_insertKV _ _ _ _ hq with h | h
        · rw [h]
        · exact hm' q h
      · rw [merge_client_step_some sd m' a e hd hl] at hq
        by_cases ht : strLt (effective_time e) (effective_time a)
        · rw [if_pos ht] at hq
          rcases mem_insertKV _ _ _ _ hq with h | h
          · rw [h]
          · exact hm' q h
        · rw [if_neg ht] at hq
          exact hm' q hq

theorem isSome_lookupKV_client_fold (sd : List String)
    (client : List Annotation) (m : List (PosKey × Annotation)) (k : PosKey)
    (h : (lookupKV m k).isSome) :
    (lookupKV (client.foldl (merge_client_step sd) m) k).isSome := by
  refine foldl_induct (fun m' => (lookupKV m' k).isSome = true) _ client m h ?_
  intro m' a ha hm'
  by_cases hd : a.datetime ∈ sd
  · unfold merge_client_step
    rw [if_pos hd]
    exact hm'
  · rcases hl : lookupKV m' (position_key a) with _ | e
    · rw [merge_client_step_none sd m' a hd hl]
      exact isSome_lookupKV_insertKV m' (position_key a) k a hm'
    · rw [merge_client_step_some sd m' a e hd hl]
      by_cases ht : strLt (effective_time e) (effective_time a)
      · rw [if_pos ht]
        exact isSome_lookupKV_insertKV _ _ _ _ hm'
      · rw [if_neg ht]
        exact hm'

theorem isSome_lookupKV_server_fold (cd : List String)
    (server : List Annotation) (m : List (PosKey × Annotation)) (k : PosKey)
    (h : (lookupKV m k).isSome) :
    (lookupKV (server.foldl (merge_server_step cd) m) k).isSome := by
  refine foldl_induct (fun m' => (lookupKV m' k).isSome = true) _ server m h ?_
  intro m' a ha hm'
  unfold merge_server_step
  by_cases hd : a.datetime ∈ cd
  · rw [if_pos hd]
    exact hm'
  · rw [if_neg hd]
    exact isSome_lookupKV_insertKV _ _ _ _ hm'

theorem server_fold_binds (cd : List String) ( a : Annotation)
    (hd : a.datetime ∉ cd) :
    ∀ (server : List Annotation) (m : List (PosKey × Annotation)),
      a ∈ server →
      (lookupKV (server.foldl (merge_server_step cd) m) (position_key a)).isSome := by
  intro server
  induction server with
  | nil => intro m ha; cases ha
  | cons b t ih =>
      intro m ha
      rcases List.mem_cons.mp ha with rfl | hat
      · rw [List.foldl_cons]
        apply isSome_lookupKV_server_fold
        unfold merge_server_step
        rw [if_neg hd, lookupKV_insertKV_self]
        rfl
      · rw [List.foldl_cons]
        exact ih (merge_server_step cd m b) hat

/-- Each server annotation surviving the client's deletion filter leaves a
binding at its identity key in the final merge map. -/
theorem merge_map_binds (server client : List Annotation) (sd cd : List String)
    ( a : Annotation) (ha : a ∈ server) (hd : a.datetime ∉ cd) :
    (lookupKV (merge_map server client sd cd) (position_key a)).isSome := by
  unfold merge_map merge_server_phase
  exact isSome_lookupKV_client_fold sd client _ _
    (server_fold_binds cd a hd server [] ha)

/-! Helper lemmas about the deleted-list union. -/

theorem mem_merge_deleted : ∀ (nd cur : List String) (x : String),
    x ∈ merge_deleted cur nd ↔ x ∈ cur ∨ x ∈ nd := by
  intro nd
  induction nd with
  | nil => intro cur x; simp [merge_deleted]
  | cons d t ih =>
      intro cur x
      have h1 : merge_deleted cur (d :: t) =
          merge_deleted (if d ∈ cur then cur else cur ++ [d]) t := rfl
      rw [h1, ih]
      by_cases hd : d ∈ cur
      · rw [if_pos hd]
        simp only [List.mem_cons]
        constructor
        · rintro (h | h)
          · exact Or.inl h
          · exact Or.inr (Or.inr h)
        · rintro (h | rfl | h)
          · exact Or.inl h
          · exact Or.inl hd
          · exact Or.inr h
      · rw [if_neg hd]
        simp only [List.mem_append, List.mem_singleton, List.mem_cons]
        tauto

theorem nodup_merge_deleted : ∀ (nd cur : List String), cur.Nodup →
    (merge_deleted cur nd).Nodup := by
  intro nd
  induction nd with
  | nil => intro cur h; exact h
  | cons d t ih =>
      intro cur h
      have h1 : merge_deleted cur (d :: t) =
          merge_deleted (if d ∈ cur then cur else cur ++ [d]) t := rfl
      rw [h1]
      apply ih
      by_cases hd : d ∈ cur
      · rw [if_pos hd]
        exact h
      · rw [if_neg hd]
        simp [List.nodup_append, h, hd]

theorem subset_merge_deleted (cur nd : List String) :
    cur ⊆ merge_deleted cur nd :=
  fun _ hx => (mem_merge_deleted nd cur _).mpr (Or.inl hx)

/-- Shape of any successful `update_annotations` result. -/
theorem update_eq_ok (current : DocumentAnnotations) (na : List Annotation)
    (nd : List String) (b : Option Nat) (ts : Int)
    (doc : DocumentAnnotations) (v : Nat) (rts : Int)
    (h : update_annotations current na nd b ts = Except.ok (doc, v, rts)) :
    doc = apply_update current na nd ts ∧ v = current.version + 1 ∧ rts = ts := by
  unfold update_annotations at h
  by_cases hc : version_conflict current.version b
  · rw [if_pos hc] at h
    cases h
  · rw [if_neg hc] at h
    injection h with h'
    injection h' with ha hbc
    injection hbc with hb hc'
    exact ⟨ha.symm, hb.symm, hc'.symm⟩

/-! Claim theorems. -/

/-- Claim C1: whenever `baseVersion` is supplied, the stored record's version
is greater than 0 and `baseVersion` differs from the stored version,
`updateAnnotations` fails with the distinct version-conflict error and the
stored record is left unchanged (no partial state is committed). -/
theorem update_conflict_aborts (stored : Option DocumentAnnotations)
    (na : List Annotation) (nd : List String) (b : Nat) (ts : Int)
    (hv : 0 < (get_annotations stored).version)
    (hb : b ≠ (get_annotations stored).version) :
    update_annotations_store stored na nd (some b) ts =
      (stored, Except.error AppError.VersionConflict) := by
  have hc : version_conflict (get_annotations stored).version (some b) = true := by
    unfold version_conflict
    exact decide_eq_true ⟨hb, hv⟩
  unfold update_annotations_store update_annotations
  rw [hc]
  rfl

/-- Witness for C1: a stored record at version 1 rejects base version 5. -/
theorem update_conflict_aborts_witness :
    update_annotations_store
        (some { version := 1, annotations := [], deleted := [], updated_at := 0 })
        [] [] (some 5) 0 =
      (some { version := 1, annotations := [], deleted := [], updated_at := 0 },
        Except.error AppError.VersionConflict) :=
  update_conflict_aborts
    (some { version := 1, annotations := [], deleted := [], updated_at := 0 })
    [] [] 5 0 (by decide) (by decide)

/-- Counterexample to claim C2: a client that submits an annotation together
with a tombstone for its own `createdAt` in the same request gets the
annotation stored anyway — the update succeeds and the stored record holds
both the annotation and the matching tombstone. -/
theorem deleted_invariant_cex :
    (update_annotations_store none [sampleA] ["2024-01-15 10:00:00"] none 0).2 =
      Except.ok (1, 0) ∧
      sampleA.datetime = "2024-01-15 10:00:00" ∧
      sampleA ∈ (get_annotations
        (update_annotations_store none [sampleA] ["2024-01-15 10:00:00"] none 0).1).annotations ∧
      "2024-01-15 10:00:00" ∈ (get_annotations
        (update_annotations_store none [sampleA] ["2024-01-15 10:00:00"] none 0).1).deleted := by
  refine ⟨rfl, rfl, ?_, ?_⟩ <;> decide

/-- Claim C2 (amended): after a successful update, a tombstone `t` that was
stored or incoming ends up in the stored deleted set, and no annotation with
`createdAt = t` appears in the stored annotations provided every stored
annotation with `createdAt = t` is covered by the incoming deleted list and
every incoming annotation with `createdAt = t` is covered by the previously
stored deleted set; a tombstone only suppresses annotations from the
opposite side of the merge. -/
theorem tombstone_suppression (current : DocumentAnnotations)
    (na : List Annotation) (nd : List String) (b : Option Nat) (ts : Int)
    (doc : DocumentAnnotations) (v : Nat) (rts : Int) (t : String)
    (h : update_annotations current na nd b ts = Except.ok (doc, v, rts))
    (ht : t ∈ current.deleted ∨ t ∈ nd)
    (hs : ∀ x ∈ current.annotations, x.datetime = t → t ∈ nd)
    (hc : ∀ x ∈ na, x.datetime = t → t ∈ current.deleted) :
    t ∈ doc.deleted ∧ ∀ x ∈ doc.annotations, x.datetime ≠ t := by
  obtain ⟨hdoc, -, -⟩ := update_eq_ok _ _ _ _ _ _ _ _ h
  subst hdoc
  constructor
  · exact (mem_merge_deleted nd current.deleted t).mpr ht
  · intro x hx hxt
    rcases mem_merge current.annotations na current.deleted nd x hx with
      ⟨hxs, hxn⟩ | ⟨hxc, hxn⟩
    · exact hxn (by rw [hxt]; exact hs x hxs hxt)
    · exact hxn (by rw [hxt]; exact hc x hxc hxt)

/-- Witness for the amended C2: a stored tombstone stays in the deleted set
and nothing with its `createdAt` is stored when neither side re-submits it. -/
theorem tombstone_suppression_witness :
    "t0" ∈ (apply_update
        { version := 1, annotations := [], deleted := ["t0"], updated_at := 0 }
        [] [] 0).deleted ∧
      ∀ x ∈ (apply_update
          { version := 1, annotations := [], deleted := ["t0"], updated_at := 0 }
          [] [] 0).annotations, x.datetime ≠ "t0" :=
  tombstone_suppression
    { version := 1, annotations := [], deleted := ["t0"], updated_at := 0 }
    [] [] none 0
    (apply_update
      { version := 1, annotations := [], deleted := ["t0"], updated_at := 0 }
      [] [] 0)
    2 0 "t0" rfl (Or.inl (by decide)) (by simp) (by simp)

/-- Claim C3: when a client annotation meets an already-placed entry at the
same identity slot, the entry afterwards is the client annotation exactly
when its effective time is strictly greater in the lexicographic string
order, and the existing entry is kept on equal effective times. -/
theorem merge_effective_time_wins (sd : List String)
    (m : List (PosKey × Annotation)) ( a e : Annotation)
    (hd : a.datetime ∉ sd)
    (hl : lookupKV m (position_key a) = some e) :
    lookupKV (merge_client_step sd m a) (position_key a) =
      some (if strLt (effective_time e) (effective_time a) then a else e) ∧
      (effective_time e = effective_time a →
        lookupKV (merge_client_step sd m a) (position_key a) = some e) := by
  rw [merge_client_step_some sd m a e hd hl]
  by_cases ht : strLt (effective_time e) (effective_time a)
  · rw [if_pos ht, if_pos ht]
    refine ⟨lookupKV_insertKV_self m (position_key a) a, ?_⟩
    intro heq
    rw [heq, strLt_irrefl] at ht
    cases ht
  · rw [if_neg ht, if_neg ht]
    exact ⟨hl, fun _ => hl⟩

/-- Witness for C3: a later client annotation at the slot of `sampleA`
replaces it. -/
theorem merge_effective_time_wins_witness :
    lookupKV (merge_client_step [] [(position_key sampleB, sampleA)] sampleB)
        (position_key sampleB) =
      some (if strLt (effective_time sampleA) (effective_time sampleB) then
        sampleB else sampleA) ∧
      (effective_time sampleA = effective_time sampleB →
        lookupKV (merge_client_step [] [(position_key sampleB, sampleA)] sampleB)
            (position_key sampleB) = some sampleA) :=
  merge_effective_time_wins [] [(position_key sampleB, sampleA)] sampleB sampleA
    (by decide) (by decide)

/-- Counterexample to claim C4: a server annotation whose `createdAt` is in
the client's deleted list still appears in the merged result when the client
list itself re-submits the identical annotation. -/
theorem client_delete_cex :
    sampleA ∈ [sampleA] ∧
      sampleA.datetime ∈ [sampleA.datetime] ∧
      sampleA ∈ merge_annotations [sampleA] [sampleA] [] [sampleA.datetime] := by
  refine ⟨?_, ?_, ?_⟩ <;> decide

/-- Claim C4 (amended): a server annotation whose `createdAt` is in the
client's deleted list can appear in the merged result only as a member of
the client list itself; a server annotation whose `createdAt` is not in the
client's deleted list leaves an entry at its identity triple in the merged
result. -/
theorem client_delete_precedence (server client : List Annotation)
    (sd cd : List String) ( a : Annotation) (ha : a ∈ server) :
    (a.datetime ∈ cd → a ∈ merge_annotations server client sd cd → a ∈ client) ∧
      (a.datetime ∉ cd → ∃ x ∈ merge_annotations server client sd cd,
        position_key x = position_key a) := by
  constructor
  · intro hcd hmem
    rcases mem_merge server client sd cd a hmem with ⟨-, hn⟩ | ⟨hc, -⟩
    · exact absurd hcd hn
    · exact hc
  · intro hcd
    have hb := merge_map_binds server client sd cd a ha hcd
    rcases ho : lookupKV (merge_map server client sd cd) (position_key a) with _ | v
    · rw [ho] at hb
      simp at hb
    · have hv : (position_key a, v) ∈ merge_map server client sd cd :=
        lookupKV_mem _ _ _ ho
      refine ⟨v, ?_, ?_⟩
      · show v ∈ (merge_map server client sd cd).map Prod.snd
        exact List.mem_map.mpr ⟨(position_key a, v), hv, rfl⟩
      · exact (merge_map_keys server client sd cd (position_key a, v) hv).symm

/-- Witness for the amended C4: a lone server annotation with no tombstones
keeps an entry at its identity triple. -/
theorem client_delete_precedence_witness :
    (sampleA.datetime ∈ ([] : List String) →
      sampleA ∈ merge_annotations [sampleA] [] [] [] →
      sampleA ∈ ([] : List Annotation)) ∧
      (sampleA.datetime ∉ ([] : List String) →
        ∃ x ∈ merge_annotations [sampleA] [] [] [],
          position_key x = position_key sampleA) :=
  client_delete_precedence [sampleA] [] [] [] sampleA (by decide)

/-- Counterexample to claim C5: a client annotation whose `createdAt` is in
the server's stored deleted set does appear in the merged result when the
server list still holds the identical annotation. -/
theorem server_delete_cex :
    sampleA ∈ [sampleA] ∧
      sampleA.datetime ∈ [sampleA.datetime] ∧
      sampleA ∈ merge_annotations [sampleA] [sampleA] [sampleA.datetime] [] := by
  refine ⟨?_, ?_, ?_⟩ <;> decide

/-- Claim C5 (amended): a client annotation whose `createdAt` is in the
server's stored deleted set is never inserted by the merge: when the server
list does not already contain the identical annotation, it does not appear
in the merged result, regardless of identity triple or effective time. -/
theorem server_delete_precedence (server client : List Annotation)
    (sd cd : List String) ( a : Annotation) (ha : a ∈ client)
    (hd : a.datetime ∈ sd) (hns : a ∉ server) :
    a ∉ merge_annotations server client sd cd := by
  intro hmem
  rcases mem_merge server client sd cd a hmem with ⟨hsrv, -⟩ | ⟨-, hn⟩
  · exact hns hsrv
  · exact hn hd

/-- Witness for the amended C5: a re-submitted annotation whose `createdAt`
is tombstoned on the server does not reappear. -/
theorem server_delete_precedence_witness :
    sampleA ∉ merge_annotations [] [sampleA] [sampleA.datetime] [] :=
  server_delete_precedence [] [sampleA] [sampleA.datetime] [] sampleA
    (by decide) (by decide) (by decide)

/-- Claim C6: on a document whose stored version is 0, the version check is
skipped and the update succeeds for every supplied `baseVersion`, returning
version 1. -/
theorem bootstrap_update_succeeds (current : DocumentAnnotations)
    (na : List Annotation) (nd : List String) (b : Nat) (ts : Int)
    (h0 : current.version = 0) :
    update_annotations current na nd (some b) ts =
      Except.ok (apply_update current na nd ts, 1, ts) := by
  have hc : version_conflict current.version (some b) = false := by
    unfold version_conflict
    rw [h0]
    simp
  have hv : (apply_update current na nd ts).version = 1 := by
    simp [apply_update, h0]
  unfold update_annotations
  rw [hc, hv]
  rfl

/-- Witness for C6: the very first update succeeds with a deliberately wrong
base version 42. -/
theorem bootstrap_update_succeeds_witness :
    update_annotations DocumentAnnotations.default [] [] (some 42) 0 =
      Except.ok (apply_update DocumentAnnotations.default [] [] 0, 1, 0) :=
  bootstrap_update_succeeds DocumentAnnotations.default [] [] 42 0 rfl

/-- Claim C7: every successful `updateAnnotations` call writes and returns
version `currentVersion + 1`, so successive successful updates from the
absent record produce versions 1, 2, 3, … with no gaps, repeats, or
backward steps. -/
theorem version_increment (stored : Option DocumentAnnotations)
    (na : List Annotation) (nd : List String) (b : Option Nat) (ts : Int)
    (stored' : Option DocumentAnnotations) (v : Nat) (rts : Int)
    (h : update_annotations_store stored na nd b ts =
      (stored', Except.ok (v, rts))) :
    v = (get_annotations stored).version + 1 ∧
      (get_annotations stored').version = (get_annotations stored).version + 1 := by
  unfold update_annotations_store at h
  rcases hu : update_annotations (get_annotations stored) na nd b ts with e | val
  · rw [hu] at h
    injection h with h1 h2
    cases h2
  · obtain ⟨doc, v', rts'⟩ := val
    rw [hu] at h
    injection h with h1 h2
    injection h2 with h3
    injection h3 with h4 h5
    obtain ⟨hdoc, hv', -⟩ := update_eq_ok _ _ _ _ _ _ _ _ hu
    constructor
    · rw [← h4]
      exact hv'
    · rw [← h1]
      show doc.version = _
      rw [hdoc]
      rfl

/-- Witness for C7: the first successful update moves the absent record to
version 1. -/
theorem version_increment_witness :
    1 = (get_annotations none).version + 1 ∧
      (get_annotations
        (some (apply_update DocumentAnnotations.default [] [] 0))).version =
        (get_annotations none).version + 1 :=
  version_increment none [] [] none 0
    (some (apply_update DocumentAnnotations.default [] [] 0)) 1 0 rfl

/-- Claim C8: after every successful update the stored deleted collection is
the set union of the previous deleted set and the incoming deleted list,
has no duplicate entries (given the stored set had none), and contains the
previous deleted set. -/
theorem deleted_union_props (current : DocumentAnnotations)
    (na : List Annotation) (nd : List String) (b : Option Nat) (ts : Int)
    (doc : DocumentAnnotations) (v : Nat) (rts : Int)
    (h : update_annotations current na nd b ts = Except.ok (doc, v, rts))
    (hnodup : current.deleted.Nodup) :
    (∀ x, x ∈ doc.deleted ↔ x ∈ current.deleted ∨ x ∈ nd) ∧
      doc.deleted.Nodup ∧ current.deleted ⊆ doc.deleted := by
  obtain ⟨hdoc, -, -⟩ := update_eq_ok _ _ _ _ _ _ _ _ h
  subst hdoc
  refine ⟨?_, ?_, ?_⟩
  · intro x
    exact mem_merge_deleted nd current.deleted x
  · exact nodup_merge_deleted nd current.deleted hnodup
  · exact subset_merge_deleted current.deleted nd

/-- Witness for C8 on a duplicate-carrying incoming deleted list. -/
theorem deleted_union_props_witness :
    (∀ x, x ∈ (apply_update DocumentAnnotations.default [] ["a", "b", "a"] 0).deleted ↔
        x ∈ DocumentAnnotations.default.deleted ∨ x ∈ ["a", "b", "a"]) ∧
      (apply_update DocumentAnnotations.default [] ["a", "b", "a"] 0).deleted.Nodup ∧
      DocumentAnnotations.default.deleted ⊆
        (apply_update DocumentAnnotations.default [] ["a", "b", "a"] 0).deleted :=
  deleted_union_props DocumentAnnotations.default [] ["a", "b", "a"] none 0
    (apply_update DocumentAnnotations.default [] ["a", "b", "a"] 0) 1 0 rfl
    (by decide)

/-- Claim C9: for a never-written key, `getAnnotations` yields the zero-value
record (version 0, empty annotation and deleted lists, `updatedAt` 0) and
`getProgress` yields the record with every field absent; neither read is an
error. -/
theorem absent_record_defaults :
    get_annotations none = DocumentAnnotations.default ∧
      (get_annotations none).version = 0 ∧
      (get_annotations none).annotations = [] ∧
      (get_annotations none).deleted = [] ∧
      (get_annotations none).updated_at = 0 ∧
      get_progress none = Progress.default ∧
      (get_progress none).document = none ∧
      (get_progress none).progress = none ∧
      (get_progress none).percentage = none ∧
      (get_progress none).device = none ∧
      (get_progress none).device_id = none ∧
      (get_progress none).timestamp = none :=
  ⟨rfl, rfl, rfl, rfl, rfl, rfl, rfl, rfl, rfl, rfl, rfl, rfl⟩

/-- Claim C10: with `baseVersion` absent the call never raises the
version-conflict error — the merge is applied unconditionally and the call
succeeds, whatever the stored version. -/
theorem no_base_version_no_conflict (current : DocumentAnnotations)
    (na : List Annotation) (nd : List String) (ts : Int) :
    update_annotations current na nd none ts =
      Except.ok (apply_update current na nd ts, current.version + 1, ts) := rfl

end KoSync
